import Mathlib

/-!
A verification development for the kodecks rules engine.

Part 1 models the embedded expression language of
`src/kodecks/src/dsl/script/exp.rs`: the AST (`Exp`, `Path`), the value
model (`Value`, `Constant`, `Function`), the evaluation parameters
(`ExpParams`, a stack of variable scopes plus an execution budget) and the
evaluator itself (`evalV`).

Part 2 models the opcode/stack engine entry points of
`src/kodecks/src/env/mod.rs` (`process`, `processTurn`) and the game-state
condition check of `src/kodecks/src/env/state.rs`, plus `Regulation.verify`
(`src/kodecks/src/regulation.rs`), `ObjectIdCounter.allocate`
(`src/kodecks/src/id.rs`) and `ShardList.consume`
(`src/kodecks/src/shard.rs`).
-/

namespace Script

/-- Errors of the expression evaluator.  Modelled from the spec: the enum
itself lives in `dsl/script/error.rs`, which is not among the provided
sources; the variants are the ones referenced from `dsl/script/exp.rs`
(`InvalidSyntax`, `InvalidKey`, `UndefinedVariable`, `UndefinedFilter`,
`ExecutionLimitExceeded`, `Custom`) plus the key-not-found error that the
spec assigns to indexing a missing object key without the `?` modifier. -/
inductive Error where
  | invalidSyntax
  | invalidKey
  | undefinedVariable
  | undefinedFilter
  | executionLimitExceeded
  | keyNotFound (key : String)
  | custom (msg : String)
  deriving DecidableEq, Repr

/-- A result of the total Lean embedding of the evaluator: either a real
evaluator error (`run`), or `fuel`, an artifact marking that the
structural-recursion fuel of the embedding ran out.  `fuel` never occurs
once the fuel exceeds the depth of the evaluation tree; in particular all
theorems below instantiate the fuel large enough for it to be unreachable. -/
inductive EvalErr where
  | run (e : Error)
  | fuel
  deriving DecidableEq, Repr

/-- Primitive constants of the expression value model (`Constant` in
`dsl/script/value.rs`, which is not among the provided sources; the
constructors are the ones referenced from `dsl/script/exp.rs`).  The 64-bit
machine integers are modelled as `Nat`/`Int` (no claim exercises integer
overflow); the 64-bit float is carried as its bit pattern and float
arithmetic is not modelled (no claim concerns floating point). -/
inductive Constant where
  | null
  | bool (b : Bool)
  | u64 (n : Nat)
  | i64 (n : Int)
  | f64 (bits : UInt64)
  | str (s : String)
  deriving DecidableEq, Repr

/-- Binary operators, mirroring `enum BinOp` in `dsl/script/exp.rs`. -/
inductive BinOp where
  | add
  | sub
  | mul
  | div
  | rem
  | beq
  | bne
  | bge
  | bgt
  | ble
  | blt
  deriving DecidableEq, Repr

mutual

/-- The expression AST, mirroring `enum Exp` in `dsl/script/exp.rs`
constructor by constructor (`Variable` is renamed `var` and `Error` is
renamed `err` to avoid Lean keywords). -/
inductive Exp where
  | ident
  | path (lhs : Exp) (parts : List Path)
  | var (name : String)
  | value (v : Value)
  | arr (e : Option Exp)
  | obj (pairs : List (Exp × Option Exp))
  | assign (name : String) (e : Exp)
  | pipe (l : Exp) (r : Exp)
  | comma (l : Exp) (r : Exp)
  | tryCatch (l : Exp) (r : Exp)
  | ifThenElse (branches : List (Exp × Exp)) (els : Option Exp)
  | binOp (l : Exp) (op : BinOp) (r : Exp)
  | neg (e : Exp)
  | str (args : List Exp)
  | select (e : Exp)
  | err (e : Exp)
  | customFunction (name : String) (args : List Exp)
  | not
  | empty

/-- Path segments, mirroring `enum Path` in `dsl/script/exp.rs`; the `Bool`
is the `?` optional modifier. -/
inductive Path where
  | index (e : Exp) (opt : Bool)
  | range (start : Option Exp) (stop : Option Exp) (opt : Bool)

/-- The dynamically-tagged value model (`enum Value` in
`dsl/script/value.rs`, not among the provided sources; the spec describes
it as a tagged variant over null/bool/integer/float/string/array/
ordered-key object/function).  The ordered-key `BTreeMap` of an object is
modelled as a key-sorted association list. -/
inductive Value where
  | constant (c : Constant)
  | array (vs : List Value)
  | object (kvs : List (String × Value))
  | function (f : Function)

/-- A user-defined function: parameter names plus a body AST
(`struct Function` in `dsl/script/exp.rs`). -/
inductive Function where
  | mk (name : String) (args : List String) (body : Exp)

end

def Function.name : Function → String
  | .mk n _ _ => n

def Function.args : Function → List String
  | .mk _ a _ => a

def Function.body : Function → Exp
  | .mk _ _ b => b

/-- One variable/function scope: a `HashMap<String, Exp>` modelled as an
association list where insertion conses (lookup finds the most recent
binding, matching `HashMap::insert` overwrite semantics observationally). -/
abbrev Scope : Type := List (String × Exp)

def Scope.emptyScope : Scope := ([] : List (String × Exp))

/-- `struct ExpParams` of `dsl/script/exp.rs`: the stack of scopes plus the
remaining execution budget.  The Rust `Vec` keeps the innermost scope last;
here the innermost scope is the list head (push and pop work on the head). -/
structure ExpParams where
  vars : List Scope
  executionLimit : Nat

/-- `EXECUTION_LIMIT` of `dsl/script/exp.rs`. -/
def EXECUTION_LIMIT : Nat := 256

/-- `ExpParams::default`: one (empty) global scope and a full budget. -/
def ExpParams.default : ExpParams :=
  { vars := [Scope.emptyScope], executionLimit := EXECUTION_LIMIT }

/-- `ExpParams::consume_exec`: budget deduction; on insufficient budget the
params are left unchanged and `ExecutionLimitExceeded` is reported. -/
def ExpParams.consumeExec (p : ExpParams) (n : Nat) :
    ExpParams × Except EvalErr Unit :=
  if n ≤ p.executionLimit then
    ({ p with executionLimit := p.executionLimit - n }, .ok ())
  else
    (p, .error (.run .executionLimitExceeded))

/-- `ExpParams::push_vars`: push a fresh empty innermost scope. -/
def ExpParams.pushVars (p : ExpParams) : ExpParams :=
  { p with vars := Scope.emptyScope :: p.vars }

/-- `ExpParams::pop_vars`: drop the innermost scope, refusing to remove the
last remaining one. -/
def ExpParams.popVars (p : ExpParams) : ExpParams :=
  if 1 < p.vars.length then { p with vars := p.vars.tail } else p

/-- `ExpParams::get_var`: innermost-first search; a binding that is not an
`Exp::Value` does not stop the search (mirrors the `if let` in the source). -/
def ExpParams.getVar (p : ExpParams) (name : String) : Option Value :=
  p.vars.findSome? fun s =>
    match List.lookup name s with
    | some (Exp.value v) => some v
    | _ => none

/-- `ExpParams::set_var`: insert into the innermost scope (no-op on an empty
scope stack, mirroring `last_mut`). -/
def ExpParams.setVar (p : ExpParams) (name : String) (v : Value) : ExpParams :=
  match p.vars with
  | [] => p
  | s :: rest => { p with vars := ((name, Exp.value v) :: s) :: rest }

/-- The `{name}/{arity}` mangling shared by `get_def` and `set_def`. -/
def defId (name : String) (arity : Nat) : String :=
  if 0 < arity then name ++ "/" ++ toString arity else name

/-- `ExpParams::get_def`: innermost-first search for a definition. -/
def ExpParams.getDef (p : ExpParams) (name : String) (arity : Nat) :
    Option Exp :=
  p.vars.findSome? fun s => List.lookup (defId name arity) s

/-- `ExpParams::set_def`: insert a definition into the innermost scope. -/
def ExpParams.setDef (p : ExpParams) (name : String) (arity : Nat) (e : Exp) :
    ExpParams :=
  match p.vars with
  | [] => p
  | s :: rest => { p with vars := ((defId name arity, e) :: s) :: rest }

/-! ### Value operations

`dsl/script/value.rs` is not among the provided source files; the
operations below are modelled from the spec (§3 "Expression value", §4.1)
exactly as far as the claims exercise them: object key lookup (with the
key-not-found error for a missing key), and budget-relevant string
repetition.  Paths the claims never reach (float arithmetic, composite
rendering, composite comparison, division) are deliberately shallow and
are documented as such. -/

/-- `Constant::as_i64`: the 64-bit integer view used by literal path
indexing.  Modelled from the spec: floats and non-numeric constants give
`none`. -/
def Constant.asI64 : Constant → Option Int
  | .u64 n => some (n : Int)
  | .i64 i => some i
  | _ => none

/-- Truthiness (`!!v` in the source): null and false are falsy, everything
else truthy.  Modelled from the spec. -/
def Value.truthy : Value → Bool
  | .constant Constant.null => false
  | .constant (Constant.bool b) => b
  | _ => true

/-- `Value::to_string` used by string interpolation and object keys.
Modelled from the spec; composite values render as placeholders (no claim
renders a composite value). -/
def Value.render : Value → String
  | .constant Constant.null => "null"
  | .constant (Constant.bool b) => if b then "true" else "false"
  | .constant (Constant.u64 n) => toString n
  | .constant (Constant.i64 i) => toString i
  | .constant (Constant.f64 _) => "<float>"
  | .constant (Constant.str s) => s
  | .array _ => "<array>"
  | .object _ => "<object>"
  | .function _ => "<function>"

/-- Normalize an integer result: non-negative results are `u64`, negative
ones `i64`.  Modelled from the spec (no claim depends on the tag of an
arithmetic result). -/
def mkInt (i : Int) : Value :=
  if 0 ≤ i then .constant (.u64 i.toNat) else .constant (.i64 i)

/-- `l + r`.  Modelled from the spec: numeric addition and string
concatenation. -/
def Value.addV : Value → Value → Except Error Value
  | .constant (Constant.u64 a), .constant (Constant.u64 b) => .ok (mkInt ((a : Int) + b))
  | .constant (Constant.u64 a), .constant (Constant.i64 b) => .ok (mkInt ((a : Int) + b))
  | .constant (Constant.i64 a), .constant (Constant.u64 b) => .ok (mkInt (a + (b : Int)))
  | .constant (Constant.i64 a), .constant (Constant.i64 b) => .ok (mkInt (a + b))
  | .constant (Constant.str a), .constant (Constant.str b) =>
      .ok (.constant (.str (a ++ b)))
  | _, _ => .error (Error.custom "unsupported operands")

/-- `l - r`.  Modelled from the spec: numeric subtraction. -/
def Value.subV : Value → Value → Except Error Value
  | .constant a, .constant b =>
      match a.asI64, b.asI64 with
      | some x, some y => .ok (mkInt (x - y))
      | _, _ => .error (Error.custom "unsupported operands")
  | _, _ => .error (Error.custom "unsupported operands")

/-- String repetition helper for multiply-by-count. -/
def repeatStr (s : String) (n : Nat) : String :=
  (List.replicate n s).foldl (fun a b => a ++ b) ""

/-- `l * r`.  Modelled from the spec: numeric multiplication and string
repetition via multiply-by-count. -/
def Value.mulV : Value → Value → Except Error Value
  | .constant (Constant.str s), .constant (Constant.u64 n) =>
      .ok (.constant (.str (repeatStr s n)))
  | .constant a, .constant b =>
      match a.asI64, b.asI64 with
      | some x, some y => .ok (mkInt (x * y))
      | _, _ => .error (Error.custom "unsupported operands")
  | _, _ => .error (Error.custom "unsupported operands")

/-- `l / r`.  In the source, division produces floats (and splits strings);
modelled shallowly as an error since no claim divides. -/
def Value.divV : Value → Value → Except Error Value
  | _, _ => .error (Error.custom "unsupported operands")

/-- `l % r`.  Modelled from the spec: integer remainder. -/
def Value.remV : Value → Value → Except Error Value
  | .constant a, .constant b =>
      match a.asI64, b.asI64 with
      | some x, some y =>
          if y = 0 then .error (Error.custom "division by zero")
          else .ok (mkInt (Int.emod x y))
      | _, _ => .error (Error.custom "unsupported operands")
  | _, _ => .error (Error.custom "unsupported operands")

/-- `-v`.  Modelled from the spec: numeric negation. -/
def Value.negV : Value → Except Error Value
  | .constant c =>
      match c.asI64 with
      | some x => .ok (mkInt (-x))
      | none => .error (Error.custom "unsupported operands")
  | _ => .error (Error.custom "unsupported operands")

/-- Structural equality used by `==`/`!=`.  Modelled from the spec:
constants compare by value; no claim compares composite values, which are
modelled as never equal. -/
def Value.beqV : Value → Value → Bool
  | .constant a, .constant b => decide (a = b)
  | _, _ => false

/-- The partial order used by `>=`/`>`/`<=`/`<`.  Modelled from the spec:
numbers compare numerically, strings lexicographically; incomparable pairs
give `none` (and the comparison operators then yield `false`). -/
def Value.cmpV : Value → Value → Option Ordering
  | .constant (Constant.u64 a), .constant (Constant.u64 b) => some (compare a b)
  | .constant (Constant.u64 a), .constant (Constant.i64 b) => some (compare (a : Int) b)
  | .constant (Constant.i64 a), .constant (Constant.u64 b) => some (compare a (b : Int))
  | .constant (Constant.i64 a), .constant (Constant.i64 b) => some (compare a b)
  | .constant (Constant.str a), .constant (Constant.str b) => some (compare a b)
  | .constant (Constant.bool a), .constant (Constant.bool b) => some (compare a b)
  | .constant Constant.null, .constant Constant.null => some Ordering.eq
  | _, _ => none

/-- `v.index_str(key, env)`: object key lookup.  Modelled from the spec:
a missing key is the key-not-found error, a non-object input the
wrong-key-type error.  (The source also passes the host environment here;
no claim exercises that capability.) -/
def Value.indexStr (v : Value) (key : String) : Except Error Value :=
  match v with
  | .object kvs =>
      match List.lookup key kvs with
      | some x => .ok x
      | none => .error (Error.keyNotFound key)
  | _ => .error Error.invalidKey

/-- `v.index_num(n)`: array indexing with negative-from-the-end indices.
Modelled from the spec. -/
def Value.indexNum (v : Value) (i : Int) : Except Error Value :=
  match v with
  | .array vs =>
      let j := if i < 0 then (vs.length : Int) + i else i
      if h : 0 ≤ j ∧ j.toNat < vs.length then .ok (vs.get ⟨j.toNat, h.2⟩)
      else .error (Error.keyNotFound (toString i))
  | _ => .error Error.invalidKey

/-- Clamp a range endpoint into `[0, len]`, resolving negative indices from
the end. -/
def clampIdx (len : Nat) (i : Option Int) (dflt : Nat) : Nat :=
  match i with
  | none => dflt
  | some i => if i < 0 then (((len : Int) + i).toNat.min len) else i.toNat.min len

/-- `v.index_range(start, end)`: array/string slicing.  Modelled from the
spec. -/
def Value.indexRange (v : Value) (start stop : Option Int) : Except Error Value :=
  match v with
  | .array vs =>
      let s := clampIdx vs.length start 0
      let e := clampIdx vs.length stop vs.length
      .ok (.array ((vs.drop s).take (e - s)))
  | .constant (Constant.str t) =>
      let cs := t.toList
      let s := clampIdx cs.length start 0
      let e := clampIdx cs.length stop cs.length
      .ok (.constant (.str (String.mk ((cs.drop s).take (e - s)))))
  | _ => .error Error.invalidKey

/-- The dispatch of a binary operator over one left/right value pair
(`Exp::eval`, `BinOp` arm of `dsl/script/exp.rs`). -/
def applyBinOp : BinOp → Value → Value → Except Error Value
  | .add, l, r => l.addV r
  | .sub, l, r => l.subV r
  | .mul, l, r => l.mulV r
  | .div, l, r => l.divV r
  | .rem, l, r => l.remV r
  | .beq, l, r => .ok (.constant (.bool (l.beqV r)))
  | .bne, l, r => .ok (.constant (.bool (!l.beqV r)))
  | .bge, l, r =>
      .ok (.constant (.bool (match l.cmpV r with
        | some Ordering.gt => true
        | some Ordering.eq => true
        | _ => false)))
  | .bgt, l, r =>
      .ok (.constant (.bool (match l.cmpV r with
        | some Ordering.gt => true
        | _ => false)))
  | .ble, l, r =>
      .ok (.constant (.bool (match l.cmpV r with
        | some Ordering.lt => true
        | some Ordering.eq => true
        | _ => false)))
  | .blt, l, r =>
      .ok (.constant (.bool (match l.cmpV r with
        | some Ordering.lt => true
        | _ => false)))

/-- Key-sorted insertion into the association-list model of the `BTreeMap`
object representation (overwrites an existing key). -/
def insertSorted (kvs : List (String × Value)) (k : String) (v : Value) :
    List (String × Value) :=
  match kvs with
  | [] => [(k, v)]
  | (k0, v0) :: rest =>
      if k < k0 then (k, v) :: (k0, v0) :: rest
      else if k = k0 then (k, v) :: rest
      else (k0, v0) :: insertSorted rest k v

/-- The host-environment capability (`trait ExpEnv`); `get_card` and
`get_player` return borrowed engine objects and are not exercised by any
claim, so only the variable and builtin-invocation capabilities are kept. -/
structure ExpEnv where
  getVar : String → Option Value
  invoke : String → List Value → Except Error (List Value)

/-! ### The evaluation monad

The Rust evaluator threads `&mut ExpParams` and returns
`Result<Vec<Value>, Error>`; crucially, mutations made before an error
persist (try/catch resumes with the already-consumed budget).  `EvalM`
mirrors this: a state-passing function that always returns the final
params alongside the result. -/

def EvalM (α : Type) : Type := ExpParams → ExpParams × Except EvalErr α

def EvalM.pureM {α : Type} (a : α) : EvalM α := fun p => (p, .ok a)

def EvalM.bindM {α β : Type} (m : EvalM α) (f : α → EvalM β) : EvalM β :=
  fun p =>
    match m p with
    | (p1, .ok a) => f a p1
    | (p1, .error e) => (p1, .error e)

instance : Monad EvalM where
  pure := EvalM.pureM
  bind := EvalM.bindM

def throwE {α : Type} (e : EvalErr) : EvalM α := fun p => (p, .error e)

/-- Lift a params-free `Except` computation into the monad. -/
def liftE {α : Type} (x : Except Error α) : EvalM α :=
  fun p => (p, x.mapError EvalErr.run)

def consumeExecM (n : Nat) : EvalM Unit := fun p => p.consumeExec n

def setVarM (name : String) (v : Value) : EvalM Unit :=
  fun p => (p.setVar name v, .ok ())

/-- Variable read: the host environment is consulted first, then the
lexical scopes (`Exp::eval`, `Variable` arm). -/
def lookupVarM (env : ExpEnv) (name : String) : EvalM Value :=
  fun p =>
    match (env.getVar name).or (p.getVar name) with
    | some v => (p, .ok v)
    | none => (p, .error (EvalErr.run Error.undefinedVariable))

def getDefM (name : String) (arity : Nat) : EvalM (Option Exp) :=
  fun p => (p, .ok (p.getDef name arity))

def invokeBuiltinM (env : ExpEnv) (name : String) (args : List Value) :
    EvalM (List Value) :=
  fun p => (p, (env.invoke name args).mapError EvalErr.run)

/-- `try/catch`: a real evaluator error from the left branch resumes with
the right branch (from the mutated params); the fuel artifact of the
embedding propagates. -/
def tryCatchM {α : Type} (m h : EvalM α) : EvalM α :=
  fun p =>
    match m p with
    | (p1, .ok v) => (p1, .ok v)
    | (p1, .error (EvalErr.run _)) => h p1
    | (p1, .error EvalErr.fuel) => (p1, .error EvalErr.fuel)

/-- `Function::invoke`'s scope bracket: push a fresh innermost scope, bind
the given names, run the body, pop — also on the error path. -/
def scopedM {α : Type} (bindings : List (String × Value)) (m : EvalM α) :
    EvalM α :=
  fun p =>
    let p1 := bindings.foldl (fun q b => q.setVar b.1 b.2) p.pushVars
    let r := m p1
    (r.1.popVars, r.2)

/-! ### The evaluator -/

/-- `enum LiteralPath` of `dsl/script/exp.rs`: a path segment with its
index expressions already evaluated to literals. -/
inductive LiteralPath where
  | strL (s : String) (opt : Bool)
  | numL (n : Int) (opt : Bool)
  | rangeL (start : Option Int) (stop : Option Int) (opt : Bool)

def LiteralPath.optOf : LiteralPath → Bool
  | .strL _ o => o
  | .numL _ o => o
  | .rangeL _ _ o => o

/-- Convert the values of an index expression into literal paths
(`Path::Index` arm): strings index by key, integer-viewable constants by
number, anything else is the invalid-key error. -/
def literalIndices : List Value → Bool → Except Error (List LiteralPath)
  | [], _ => .ok []
  | v :: rest, opt =>
      match v with
      | .constant (Constant.str s) => do
          let t ← literalIndices rest opt
          .ok (LiteralPath.strL s opt :: t)
      | .constant c =>
          match c.asI64 with
          | some i => do
              let t ← literalIndices rest opt
              .ok (LiteralPath.numL i opt :: t)
          | none => .error Error.invalidKey
      | _ => .error Error.invalidKey

/-- Convert the values of a range endpoint expression into integers
(`Path::Range` arm). -/
def toIntIndices : List Value → Except Error (List (Option Int))
  | [] => .ok []
  | v :: rest =>
      match v with
      | .constant c =>
          match c.asI64 with
          | some i => do
              let t ← toIntIndices rest
              .ok (some i :: t)
          | none => .error Error.invalidKey
      | _ => .error Error.invalidKey

/-- `start.resize_with(len, Default::default)`: pad with `none` up to `len`. -/
def padNone (l : List (Option Int)) (len : Nat) : List (Option Int) :=
  l.take len ++ List.replicate (len - l.length) none

/-- Apply the literal paths of one path segment to the current value list
(the `for i in &indices { for v in &val { ... } }` loops of the `Path`
arm): a full-range segment iterates arrays/objects, otherwise the indexing
result is appended, with an error swallowed exactly when the segment
carries the `?` optional modifier. -/
def applyIndices (lits : List LiteralPath) (vals : List Value) :
    Except Error (List Value) :=
  lits.foldlM
    (fun acc i =>
      vals.foldlM
        (fun acc2 v =>
          match i with
          | .rangeL none none _ =>
              match v with
              | .array arr => .ok (acc2 ++ arr)
              | .object kvs => .ok (acc2 ++ kvs.map Prod.snd)
              | _ => .error Error.invalidKey
          | _ =>
              let res :=
                match i with
                | .strL s _ => v.indexStr s
                | .numL m _ => v.indexNum m
                | .rangeL a b _ => v.indexRange a b
              match res with
              | .ok r => .ok (acc2 ++ [r])
              | .error e => if i.optOf then .ok acc2 else .error e)
        acc)
    []

/-- The string-repetition budget pre-check of the `BinOp` arm: a string
multiplied by a `u64` count consumes that count from the execution budget
before the multiplication runs. -/
def binOpBudget (lv rv : Value) (op : BinOp) : EvalM Unit :=
  match lv, rv, op with
  | .constant (Constant.str _), .constant (Constant.u64 m), BinOp.mul =>
      consumeExecM m
  | _, _, _ => pure ()

/-- The evaluator (`impl ExpExt<&Value> for Exp` in `dsl/script/exp.rs`),
case by case from the source.  The extra `Nat` fuel makes the Lean
embedding total (the single non-structural recursion of the source goes
through user-defined function bodies); running out of fuel reports the
`EvalErr.fuel` artifact, which is unreachable whenever the fuel exceeds
the execution budget since every call first consumes one budget unit. -/
def evalV (env : ExpEnv) : Nat → Exp → Value → EvalM (List Value)
  | 0, _, _ => throwE EvalErr.fuel
  | n + 1, e, input => do
    consumeExecM 1
    match e with
    | .ident => pure [input]
    | .path lhs parts => do
        let v0 ← evalV env n lhs input
        parts.foldlM
          (fun val part =>
            match part with
            | .index idx opt => do
                let is0 ← evalV env n idx input
                let lits ← liftE (literalIndices is0 opt)
                liftE (applyIndices lits val)
            | .range st en opt => do
                let stIdx ←
                  match st with
                  | some e0 => do
                      let xs ← evalV env n e0 input
                      liftE (toIntIndices xs)
                  | none => pure []
                let enIdx ←
                  match en with
                  | some e0 => do
                      let xs ← evalV env n e0 input
                      liftE (toIntIndices xs)
                  | none => pure []
                let len := max (max stIdx.length enIdx.length) 1
                let lits := ((padNone stIdx len).zip (padNone enIdx len)).map
                  (fun se => LiteralPath.rangeL se.1 se.2 opt)
                liftE (applyIndices lits val))
          v0
    | .var name => do
        let v ← lookupVarM env name
        pure [v]
    | .value v => pure [v]
    | .arr (some e0) => do
        let vs ← evalV env n e0 input
        pure [Value.array vs]
    | .arr none => pure [Value.array []]
    | .obj pairs => do
        let kvs ← pairs.foldlM
          (fun acc pr => do
            let keys ← evalV env n pr.1 input
            keys.foldlM
              (fun acc2 k => do
                let kstr := k.render
                let vals ←
                  match pr.2 with
                  | some rhs => evalV env n rhs input
                  | none => do
                      let v ← liftE (input.indexStr kstr)
                      pure [v]
                match vals.getLast? with
                | some last => pure (insertSorted acc2 kstr last)
                | none => pure acc2)
              acc)
          []
        pure [Value.object kvs]
    | .assign name e0 => do
        let vs ← evalV env n e0 input
        match vs.getLast? with
        | some last => do
            setVarM name last
            pure vs
        | none => pure vs
    | .pipe l r => do
        let vs ← evalV env n l input
        vs.foldlM
          (fun acc v => do
            let out ← evalV env n r v
            pure (acc ++ out))
          []
    | .comma l r => do
        let a ← evalV env n l input
        let b ← evalV env n r input
        pure (a ++ b)
    | .tryCatch l r => tryCatchM (evalV env n l input) (evalV env n r input)
    | .ifThenElse branches els => do
        let taken ← branches.foldlM
          (fun acc cb =>
            match acc with
            | some r => pure (some r)
            | none => do
                let cs ← evalV env n cb.1 input
                if cs.any Value.truthy then do
                  let r ← evalV env n cb.2 input
                  pure (some r)
                else
                  pure none)
          none
        match taken with
        | some r => pure r
        | none =>
            match els with
            | some e0 => evalV env n e0 input
            | none => pure [input]
    | .binOp l op r => do
        let ls ← evalV env n l input
        let rs ← evalV env n r input
        ls.foldlM
          (fun acc lv =>
            rs.foldlM
              (fun acc2 rv => do
                binOpBudget lv rv op
                let v ← liftE (applyBinOp op lv rv)
                pure (acc2 ++ [v]))
              acc)
          []
    | .neg e0 => do
        let vs ← evalV env n e0 input
        vs.foldlM
          (fun acc v => do
            let r ← liftE v.negV
            pure (acc ++ [r]))
          []
    | .str args => do
        let s ← args.foldlM
          (fun acc arg => do
            let vs ← evalV env n arg input
            pure (vs.foldl (fun a v => a ++ v.render) acc))
          ""
        pure [Value.constant (Constant.str s)]
    | .select arg => do
        let vs ← evalV env n arg input
        pure ((vs.filter Value.truthy).map (fun _ => input))
    | .err e0 => do
        let vs ← evalV env n e0 input
        match vs.head? with
        | some m => throwE (EvalErr.run (Error.custom m.render))
        | none => pure []
    | .customFunction name args => do
        let d ← getDefM name args.length
        match d with
        | some (Exp.value (Value.function f)) => do
            let newArgs ← (f.args.zip args).foldlM
              (fun acc pr =>
                if pr.1.startsWith "$" then do
                  let vs ← evalV env n pr.2 input
                  match vs.getLast? with
                  | some last => pure (acc ++ [last])
                  | none => pure acc
                else
                  pure (acc ++ [Value.function (Function.mk "" [] pr.2)]))
              []
            scopedM (f.args.zip newArgs) (evalV env n f.body input)
        | _ => do
            let newArgs ← args.foldlM
              (fun acc a => do
                let vs ← evalV env n a input
                pure (acc ++ vs))
              []
            invokeBuiltinM env name newArgs
    | .empty => pure []
    | .not => pure [Value.constant (Constant.bool (!input.truthy))]

/-- `Function::invoke`: push a scope, bind the parameter names to the
argument values, evaluate the body, pop the scope (also when the body
evaluation returns an error).  Definitionally the code run by the
`CustomFunction` arm of `evalV`. -/
def Function.invoke (env : ExpEnv) (fuel : Nat) (f : Function)
    (args : List Value) (input : Value) : EvalM (List Value) :=
  scopedM (f.args.zip args) (evalV env fuel f.body input)

/-- The slice evaluator (`impl ExpExt<&[Value]> for Exp`): multiplex the
expression over every input value and concatenate the outputs; consumes no
budget itself. -/
def evalS (env : ExpEnv) (fuel : Nat) (e : Exp) (inputs : List Value) :
    EvalM (List Value) :=
  inputs.foldlM
    (fun acc v => do
      let out ← evalV env fuel e v
      pure (acc ++ out))
    []

end Script

namespace Engine

/-- `Phase` (src/kodecks/src/phase.rs); `End` is renamed `endPhase` to
avoid the Lean keyword. -/
inductive Phase where
  | standby
  | draw
  | main
  | block
  | battle
  | endPhase
  deriving DecidableEq, Repr

/-- `GameCondition` (src/kodecks/src/env/mod.rs).  Player ids (`PlayerId`,
a `u8`) are modelled as `Nat`. -/
inductive GameCondition where
  | progress
  | win (player : Nat)
  | draw
  deriving DecidableEq, Repr

/-- `GameCondition::is_ended`. -/
def GameCondition.isEnded : GameCondition → Bool
  | .progress => false
  | _ => true

/-- Per-player state.  Modelled from the spec: `player.rs` is not among
the provided sources; the claims need the id, the life stat
(`stats.life`, a `u32`) and whether the deck is empty, so the other zones
are omitted and the deck is carried as its card count. -/
structure PlayerState where
  id : Nat
  life : Nat
  deckCount : Nat
  deriving DecidableEq, Repr

/-- The ordered player list.  Modelled from the spec: `player.rs` is not
among the provided sources; turn order comes from the input list and
`current` is the player whose turn it is (`PlayerList::new(current, players)`). -/
structure PlayerList where
  current : Nat
  players : List PlayerState
  deriving DecidableEq, Repr

/-- `players.get_mut(player)` followed by `loser.stats.life = 0` in the
concede arm: zero the life of the player with the given id. -/
def PlayerList.zeroLife (pl : PlayerList) (player : Nat) : PlayerList :=
  { pl with
    players := pl.players.map fun p =>
      if p.id = player then { p with life := 0 } else p }

/-- Game configuration.  Modelled from the spec: `config.rs` is not among
the provided sources; the claims only consult the
`DebugFlags::DEBUG_COMMAND` flag. -/
structure GameConfig where
  debugCommand : Bool
  deriving DecidableEq, Repr

/-- `GameState` (src/kodecks/src/env/state.rs). -/
structure GameState where
  config : GameConfig
  turn : Nat
  phase : Phase
  players : PlayerList
  deriving DecidableEq, Repr

/-- `GameState::check_game_condition` (src/kodecks/src/env/state.rs):
filter the players that survived (life nonzero and deck non-empty) and
classify draw / single winner / progress by how many remain. -/
def GameState.checkGameCondition (st : GameState) : GameCondition :=
  let survived := st.players.players.filter fun p =>
    !(p.life == 0 || p.deckCount == 0)
  match survived with
  | [] => GameCondition.draw
  | [winner] => GameCondition.win winner.id
  | _ => GameCondition.progress

/-- Player actions.  Modelled from the spec: `action.rs` is not among the
provided sources.  `concede` and `debugCommand` drive the pre-processing
in `process_turn` (debug commands are modelled as opaque numbers); the
remaining variants stand for gameplay actions whose payloads no claim
inspects. -/
inductive Action where
  | concede
  | debugCommand (cmds : List Nat)
  | selectCard (card : Nat)
  | endTurn
  deriving DecidableEq, Repr

/-- The available-action set.  Modelled from the spec: the set of legal
actions the engine currently accepts from a given player. -/
structure PlayerAvailableActions where
  player : Nat
  actions : List Action
  deriving DecidableEq, Repr

/-- `PlayerAvailableActions::validate`.  Modelled from the spec: a
submitted action passes exactly when it is one of the legal actions for
that player, with concession always legal (the spec handles concession as
action pre-processing before the main dispatch, so `process` must let it
through validation). -/
def PlayerAvailableActions.validate (av : PlayerAvailableActions)
    (player : Nat) (action : Action) : Bool :=
  action == Action.concede ||
    (player == av.player && av.actions.contains action)

/-- `Report` (`game.rs`, not among the provided sources): the log entry
type is a parameter since no claim inspects log payloads. -/
structure Report (Log : Type) where
  availableActions : Option PlayerAvailableActions
  logs : List Log
  condition : GameCondition

/-- `struct Environment` (src/kodecks/src/env/mod.rs).  The opcode queue,
effect stack and continuous-effect registry have element types defined
outside the provided sources; they are carried as type parameters (every
claim about `process` settles on paths that do not inspect them). -/
structure Environment (Op Stk Cont : Type) where
  state : GameState
  opcodes : List Op
  stack : List Stk
  continuous : Cont
  gameCondition : GameCondition
  tsCounter : Nat
  lastAvailableActions : Option PlayerAvailableActions

/-- `Environment::process_turn` (src/kodecks/src/env/mod.rs).  The
concede/debug-command pre-processing and the game-ended early return are
translated from the source (note the concede arm assigns
`GameCondition::Win(loser.id)`, the id of the *conceding* player).  The
main dispatch that follows — stack resolution, phase advance, opcode
execution, implemented in `env` submodules not among the provided
sources — is abstracted as the `mainDispatch` parameter, and the
debug-command expansion as `applyDebug`; every claim about this function
is settled on the paths that return before the main dispatch, uniformly
in these parameters. -/
def processTurn {Op Stk Cont Log : Type}
    (mainDispatch : Environment Op Stk Cont → Nat → Option Action →
      Environment Op Stk Cont × Report Log)
    (applyDebug : Environment Op Stk Cont → List Nat → Environment Op Stk Cont)
    (env : Environment Op Stk Cont) (player : Nat) (action : Option Action) :
    Environment Op Stk Cont × Report Log :=
  let pre : Environment Op Stk Cont × Option Action :=
    match action with
    | some Action.concede =>
        let st := { env.state with players := env.state.players.zeroLife player }
        ({ env with state := st, gameCondition := GameCondition.win player }, none)
    | some (Action.debugCommand cmds) =>
        if env.state.config.debugCommand then (applyDebug env cmds, none)
        else (env, some (Action.debugCommand cmds))
    | other => (env, other)
  let env1 := pre.1
  if env1.gameCondition.isEnded then
    (env1,
     { availableActions := none, logs := [], condition := env1.gameCondition })
  else
    mainDispatch env1 player pre.2

/-- `Environment::process` (src/kodecks/src/env/mod.rs): validate the
action against the last issued available-action set; a missing set routes
to `process_turn` with no action, a validated action is processed, and
anything else is rejected by re-issuing the previous available actions
with empty logs and the current condition.  Afterwards
`last_available_actions` is replaced by the report's. -/
def process {Op Stk Cont Log : Type}
    (mainDispatch : Environment Op Stk Cont → Nat → Option Action →
      Environment Op Stk Cont × Report Log)
    (applyDebug : Environment Op Stk Cont → List Nat → Environment Op Stk Cont)
    (env : Environment Op Stk Cont) (player : Nat) (action : Option Action) :
    Environment Op Stk Cont × Report Log :=
  let pr :=
    match env.lastAvailableActions, action with
    | none, _ => processTurn mainDispatch applyDebug env player none
    | some available, some a =>
        if available.validate player a then
          processTurn mainDispatch applyDebug env player (some a)
        else
          (env,
           { availableActions := env.lastAvailableActions, logs := [],
             condition := env.gameCondition })
    | some _, none =>
        (env,
         { availableActions := env.lastAvailableActions, logs := [],
           condition := env.gameCondition })
  ({ pr.1 with lastAvailableActions := pr.2.availableActions }, pr.2)

/-! ### Deck regulation (src/kodecks/src/regulation.rs) -/

/-- A deck-list entry; the claims only consult `item.archetype_id`
(modelled as `Nat`; `deck.rs` is not among the provided sources). -/
structure DeckItem where
  archetypeId : Nat
  deriving DecidableEq, Repr

/-- `DeckList` carrier. -/
structure DeckList where
  cards : List DeckItem
  deriving DecidableEq, Repr

/-- `Regulation` (src/kodecks/src/regulation.rs); the `u8`/`u32` fields
are modelled as `Nat`. -/
structure Regulation where
  maxDeckSize : Nat
  minDeckSize : Nat
  maxSameCards : Nat
  initialHandSize : Nat
  initialLife : Nat
  maxHandSize : Nat
  deriving DecidableEq, Repr

/-- `Regulation::STANDARD`. -/
def Regulation.STANDARD : Regulation :=
  { maxDeckSize := 20, minDeckSize := 20, maxSameCards := 4,
    initialHandSize := 4, initialLife := 2000, maxHandSize := 6 }

/-- One step of the duplicate-counting `HashMap`: bump the count of `a`
and return the new table together with the bumped count
(`*entry += 1` after `or_insert(0)`).  The source counter is a `u8`
(inferred from the comparison with `max_same_cards`), modelled as `Nat`:
the loop returns early as soon as a count reaches `max_same_cards + 1`,
so for `max_same_cards ≤ 254` no count ever exceeds 255 and the model is
exact; the `max_same_cards = 255` corner (where the `u8` would wrap, or
panic in a debug build) is excluded by hypothesis where it matters. -/
def bumpCount (counts : List (Nat × Nat)) (a : Nat) : List (Nat × Nat) × Nat :=
  match counts with
  | [] => ([(a, 1)], 1)
  | (k, c) :: rest =>
      if k = a then ((k, c + 1) :: rest, c + 1)
      else
        let r := bumpCount rest a
        ((k, c) :: r.1, r.2)

/-- The duplicate-counting loop of `Regulation::verify` with its early
`return false` when a count exceeds `maxSame`. -/
def verifyLoop (maxSame : Nat) : List Nat → List (Nat × Nat) → Bool
  | [], _ => true
  | a :: rest, counts =>
      let r := bumpCount counts a
      if maxSame < r.2 then false else verifyLoop maxSame rest r.1

/-- `Regulation::verify`: no archetype may occur more than
`max_same_cards` times, and `deck.cards.len() as u8` — the length
truncated to eight bits, hence the `% 256` — must lie within
`[min_deck_size, max_deck_size]`. -/
def Regulation.verify (r : Regulation) (deck : DeckList) : Bool :=
  verifyLoop r.maxSameCards (deck.cards.map DeckItem.archetypeId) [] &&
    (decide (r.minDeckSize ≤ deck.cards.length % 256) &&
     decide (deck.cards.length % 256 ≤ r.maxDeckSize))

/-! ### Object id allocation (src/kodecks/src/id.rs) -/

/-- `MAX_RESERVED_ID`. -/
def MAX_RESERVED_ID : Nat := 100

/-- `ObjectIdCounter`: the `u64` counter is modelled as `Nat` (it only
ever increments by one from 100; no claim and no realizable run reaches
64-bit wraparound). -/
structure ObjectIdCounter where
  counter : Nat
  deriving DecidableEq, Repr

/-- `ObjectIdCounter::default`: starts at the reserved threshold. -/
def ObjectIdCounter.default : ObjectIdCounter := { counter := MAX_RESERVED_ID }

/-- `ObjectIdCounter::allocate`: a pinned base id (`0 < id ≤ 100`) is
returned as is; otherwise the counter is incremented and its new value
returned. -/
def ObjectIdCounter.allocate (c : ObjectIdCounter) (baseId : Option Nat) :
    ObjectIdCounter × Nat :=
  match baseId with
  | some id =>
      if 0 < id ∧ id ≤ MAX_RESERVED_ID then (c, id)
      else ({ counter := c.counter + 1 }, c.counter + 1)
  | none => ({ counter := c.counter + 1 }, c.counter + 1)

/-- Run a sequence of allocation requests, returning the final counter and
each request paired with its result. -/
def runAllocate (c : ObjectIdCounter) :
    List (Option Nat) → ObjectIdCounter × List (Option Nat × Nat)
  | [] => (c, [])
  | req :: rest =>
      let r := c.allocate req
      let t := runAllocate r.1 rest
      (t.1, (req, r.2) :: t.2)

/-- Whether a request takes the pinned branch of `allocate`. -/
def isPinnedReq (req : Option Nat) : Bool :=
  match req with
  | some id => decide (0 < id) && decide (id ≤ MAX_RESERVED_ID)
  | none => false

/-! ### Shards (src/kodecks/src/shard.rs) -/

/-- `ActionError` (src/kodecks/src/error.rs); `shard.rs` refers to this
enum as `crate::error::Error`.  `Color` and `TimedObjectId` are modelled
as `Nat`. -/
inductive ActionError where
  | insufficientShards (color : Nat) (amount : Nat)
  | creatureAlreadyFreeCasted
  | cardNotFound (id : Nat)
  | keyNotFound (key : String)
  | invalidValueType
  | targetLost (target : Nat)
  deriving DecidableEq, Repr

/-- `ShardList`: a vector of per-color amounts (`Vec<(Color, u32)>`). -/
structure ShardList where
  entries : List (Nat × Nat)
  deriving DecidableEq, Repr

/-- The `iter_mut().find(...)` update step of `ShardList::consume`:
subtract from the first entry of the color when its amount suffices,
otherwise zero that entry; the flag is `true` when the consumption was
insufficient (no entry of the color, or its amount below `amount`). -/
def consumeUpdate (entries : List (Nat × Nat)) (color amount : Nat) :
    List (Nat × Nat) × Bool :=
  match entries with
  | [] => ([], true)
  | (c, cur) :: rest =>
      if c = color then
        if amount ≤ cur then ((c, cur - amount) :: rest, false)
        else ((c, 0) :: rest, true)
      else
        let r := consumeUpdate rest color amount
        ((c, cur) :: r.1, r.2)

/-- `ShardList::consume`: update the matching entry, retain only positive
amounts, then report the insufficient-shards error if the amount was not
available.  The mutated list is returned in both cases, mirroring the
in-place mutation of `&mut self`. -/
def ShardList.consume (s : ShardList) (color amount : Nat) :
    ShardList × Except ActionError Unit :=
  let r := consumeUpdate s.entries color amount
  let retained := r.1.filter fun e => 0 < e.2
  ({ entries := retained },
   if r.2 then .error (ActionError.insufficientShards color amount) else .ok ())

/-! ### Auxiliary definitions used by the theorems -/

/-- The spec's survivor predicate, worded as in the claim: a player
survives iff their life is nonzero and their deck is non-empty.  (The
source filter writes the equivalent `!(life == 0 || deck.is_empty())`.) -/
def survivesB (p : PlayerState) : Bool :=
  p.life != 0 && p.deckCount != 0

/-- Count of an archetype in the duplicate-counting table (0 when absent). -/
def countOf (counts : List (Nat × Nat)) (a : Nat) : Nat :=
  (List.lookup a counts).getD 0

/-- The results of the non-pinned allocations in a request trace. -/
def nonPinnedResults (c : ObjectIdCounter) (reqs : List (Option Nat)) :
    List Nat :=
  ((runAllocate c reqs).2.filter fun x => !isPinnedReq x.1).map Prod.snd

/-- A small regulation and deck used by the closed witness of the amended
C7 theorem. -/
def regSmall : Regulation :=
  { maxDeckSize := 4, minDeckSize := 1, maxSameCards := 4,
    initialHandSize := 4, initialLife := 2000, maxHandSize := 6 }

/-- Four copies of a single archetype: within `regSmall`'s limits. -/
def deck4 : DeckList :=
  { cards := [{ archetypeId := 0 }, { archetypeId := 0 },
              { archetypeId := 0 }, { archetypeId := 0 }] }

/-- A 276-card deck: 69 distinct archetypes, four copies each (so no
archetype exceeds `STANDARD.max_same_cards = 4`), whose length truncates
to `276 % 256 = 20` under the `as u8` cast in `Regulation::verify`. -/
def deck276 : DeckList :=
  { cards := (List.range 276).map fun i => { archetypeId := i / 4 } }

/-- A two-player game in progress: players 1 and 2, both at the standard
initial life of 2000 with non-empty decks, an available-action set issued
to player 1. -/
def envTwoPlayers : Environment Unit Unit Unit :=
  { state :=
      { config := { debugCommand := false }, turn := 1, phase := Phase.main,
        players :=
          { current := 1,
            players :=
              [{ id := 1, life := 2000, deckCount := 16 },
               { id := 2, life := 2000, deckCount := 16 }] } },
    opcodes := [], stack := [], continuous := (),
    gameCondition := GameCondition.progress, tsCounter := 0,
    lastAvailableActions := some { player := 1, actions := [Action.endTurn] } }

/-- A trivial main dispatch used only to instantiate the abstracted
parameter in closed witnesses (the claims settle on paths that never call
it). -/
def mdUnit : Environment Unit Unit Unit → Nat → Option Action →
    Environment Unit Unit Unit × Report Unit :=
  fun e _ _ =>
    (e, { availableActions := none, logs := [], condition := e.gameCondition })

/-- A trivial debug-command expansion for closed witnesses. -/
def adUnit : Environment Unit Unit Unit → List Nat → Environment Unit Unit Unit :=
  fun e _ => e

end Engine

namespace Script

/-- The parse of `".,.,.|.,."`: the pipe binds loosest, so the left side
is `.,.,.` (three identities in parallel) and the right side `.,.` (two). -/
def pipeCommaExp : Exp :=
  .pipe (.comma (.comma .ident .ident) .ident) (.comma .ident .ident)

/-- A host environment with no ambient variables and no builtins, used to
instantiate closed witnesses. -/
def envNone : ExpEnv :=
  { getVar := fun _ => none,
    invoke := fun _ _ => .error Error.undefinedFilter }

/-- The vars-shape invariant of one evaluation step: given a non-empty
scope stack, the stack keeps its depth and its outer scopes (everything
below the innermost). -/
def PresVars {α : Type} (m : EvalM α) : Prop :=
  ∀ p : ExpParams, p.vars ≠ [] →
    (m p).1.vars.length = p.vars.length ∧ (m p).1.vars.tail = p.vars.tail

end Script

namespace Engine

/-- C1: the claim says `process(A, Some(Concede))` reports `Win(B)` for
the non-conceding player B.  The code instead assigns
`GameCondition::Win(loser.id)` — the id of the *conceding* player: in the
two-player game `envTwoPlayers`, player 1's concession yields `Win 1`,
not `Win 2`.  The rest of the claim behaves as stated: the report carries
no available actions, and every subsequent `process` call by either
player returns that same condition with an absent available-action set.
The statement holds uniformly in the abstracted main dispatch, which the
concede path never reaches. -/
theorem concede_reports_win_of_conceder
    (md : Environment Unit Unit Unit → Nat → Option Action →
      Environment Unit Unit Unit × Report Unit)
    (ad : Environment Unit Unit Unit → List Nat → Environment Unit Unit Unit) :
    (process md ad envTwoPlayers 1 (some Action.concede)).2.condition
        = GameCondition.win 1 ∧
    GameCondition.win 1 ≠ GameCondition.win 2 ∧
    (process md ad envTwoPlayers 1 (some Action.concede)).2.availableActions
        = none ∧
    (∀ (player : Nat) (action : Option Action),
      (process md ad
          (process md ad envTwoPlayers 1 (some Action.concede)).1
          player action).2
        = { availableActions := none, logs := [],
            condition := GameCondition.win 1 }) := by
  exact ⟨rfl, by decide, rfl, fun player action => rfl⟩

/-- C2: when the last issued available-action set is present and the
submitted action fails validation against it (or is missing), `process`
is a no-op: the environment — game state, opcode queue, stack, and game
condition — is returned unchanged, and the report re-issues the previous
available actions with empty logs and the current condition. -/
theorem process_rejects_invalid {Op Stk Cont Log : Type}
    (md : Environment Op Stk Cont → Nat → Option Action →
      Environment Op Stk Cont × Report Log)
    (ad : Environment Op Stk Cont → List Nat → Environment Op Stk Cont)
    (env : Environment Op Stk Cont) (player : Nat) (action : Option Action)
    (av : PlayerAvailableActions)
    (hlast : env.lastAvailableActions = some av)
    (hfail : ∀ a, action = some a → av.validate player a = false) :
    process md ad env player action =
      (env,
       { availableActions := some av, logs := [],
         condition := env.gameCondition }) := by
  obtain ⟨st, ops, stk, cont, cond, ts, last⟩ := env
  obtain rfl : last = some av := hlast
  cases action with
  | none => rfl
  | some a =>
      have hv := hfail a rfl
      simp only [process, hv, Bool.false_eq_true, if_false]

/-- Closed witness for `process_rejects_invalid`: player 2 submits
`EndTurn` against a set addressed to player 1, which fails validation. -/
theorem process_rejects_invalid_witness :
    process mdUnit adUnit envTwoPlayers 2 (some Action.endTurn) =
      (envTwoPlayers,
       { availableActions := some { player := 1, actions := [Action.endTurn] },
         logs := [], condition := GameCondition.progress }) :=
  process_rejects_invalid mdUnit adUnit envTwoPlayers 2 (some Action.endTurn)
    { player := 1, actions := [Action.endTurn] } rfl
    (by intro a ha; injection ha with h; subst h; rfl)

/-- C3: `check_game_condition` realizes the draw/single-winner/progress
trichotomy over the survivors, where a player survives iff their life is
nonzero and their deck is non-empty: draw iff no survivor, `Win pid` iff
the survivor list is exactly one player with that id, progress iff at
least two survive. -/
theorem checkGameCondition_trichotomy (st : GameState) :
    (st.checkGameCondition = GameCondition.draw ↔
        st.players.players.filter survivesB = []) ∧
    (∀ pid, st.checkGameCondition = GameCondition.win pid ↔
        ∃ w, st.players.players.filter survivesB = [w] ∧ w.id = pid) ∧
    (st.checkGameCondition = GameCondition.progress ↔
        2 ≤ (st.players.players.filter survivesB).length) := by
  have hpred :
      (st.players.players.filter fun p => !(p.life == 0 || p.deckCount == 0))
        = st.players.players.filter survivesB := by
    apply List.filter_congr
    intro p _
    simp [survivesB, Bool.not_or, bne]
  unfold GameState.checkGameCondition
  rw [hpred]
  rcases hF : st.players.players.filter survivesB with _ | ⟨w, _ | ⟨x, rest⟩⟩ <;>
    simp

/-- The bumped count returned by one `bumpCount` step is the previous
count of that archetype plus one. -/
theorem bumpCount_snd (a : Nat) :
    ∀ counts : List (Nat × Nat), (bumpCount counts a).2 = countOf counts a + 1 := by
  intro counts
  induction counts with
  | nil => rfl
  | cons kv rest ih =>
      obtain ⟨k, c⟩ := kv
      by_cases h : k = a
      · subst h
        simp [bumpCount, countOf, List.lookup]
      · have hne : (a == k) = false := by
          simp only [beq_eq_false_iff_ne, ne_eq]
          exact fun hh => h hh.symm
        simp [bumpCount, h, countOf, List.lookup, hne, ih]

/-- How one `bumpCount` step changes the table's counts. -/
theorem bumpCount_countOf (a x : Nat) :
    ∀ counts : List (Nat × Nat),
      countOf (bumpCount counts a).1 x =
        if x = a then countOf counts a + 1 else countOf counts x := by
  intro counts
  induction counts with
  | nil =>
      by_cases h : x = a
      · subst h
        simp [bumpCount, countOf, List.lookup]
      · have hne : (x == a) = false := by
          simp only [beq_eq_false_iff_ne, ne_eq]
          exact h
        simp [bumpCount, countOf, List.lookup, h, hne]
  | cons kv rest ih =>
      obtain ⟨k, c⟩ := kv
      by_cases hk : k = a
      · subst hk
        by_cases hx : x = k
        · subst hx
          simp [bumpCount, countOf, List.lookup]
        · have hne : (x == k) = false := by
            simp only [beq_eq_false_iff_ne, ne_eq]
            exact hx
          simp [bumpCount, countOf, List.lookup, hx, hne]
      · have hnak : (a == k) = false := by
          simp only [beq_eq_false_iff_ne, ne_eq]
          exact fun hh => hk hh.symm
        by_cases hx : x = k
        · subst hx
          simp [bumpCount, hk, countOf, List.lookup, hnak]
        · have hne : (x == k) = false := by
            simp only [beq_eq_false_iff_ne, ne_eq]
            exact hx
          have ih2 : (List.lookup x (bumpCount rest a).1).getD 0 =
              if x = a then (List.lookup a rest).getD 0 + 1
              else (List.lookup x rest).getD 0 := by
            simpa [countOf] using ih
          simp [bumpCount, hk, countOf, List.lookup, hne, hnak, ih2]

/-- Characterization of the duplicate-counting loop of
`Regulation::verify`: it accepts exactly when every archetype that occurs
in the remaining cards stays within `maxSame`, counting what the table
already holds. -/
theorem verifyLoop_true_iff (maxSame : Nat) :
    ∀ (cards : List Nat) (counts : List (Nat × Nat)),
      verifyLoop maxSame cards counts = true ↔
        ∀ a, 0 < cards.count a → countOf counts a + cards.count a ≤ maxSame := by
  intro cards
  induction cards with
  | nil => intro counts; simp [verifyLoop]
  | cons b rest ih =>
      intro counts
      rw [verifyLoop, bumpCount_snd]
      have hcount_self : (b :: rest).count b = rest.count b + 1 :=
        List.count_cons_self b rest
      have hcount_ne : ∀ d, d ≠ b → (b :: rest).count d = rest.count d := by
        intro d hd
        rw [List.count_cons]
        simp [Ne.symm hd, hd]
      by_cases h : maxSame < countOf counts b + 1
      · rw [if_pos h]
        constructor
        · intro hfalse
          cases hfalse
        · intro hR
          exfalso
          have hb := hR b (by rw [hcount_self]; omega)
          rw [hcount_self] at hb
          omega
      · rw [if_neg h, ih]
        constructor
        · intro hL d hd
          by_cases hdb : d = b
          · subst hdb
            rw [hcount_self]
            rcases Nat.eq_zero_or_pos (rest.count d) with h0 | h0
            · rw [h0]
              omega
            · have h2 := hL d h0
              rw [bumpCount_countOf, if_pos rfl] at h2
              omega
          · rw [hcount_ne d hdb] at hd ⊢
            have h2 := hL d hd
            rw [bumpCount_countOf, if_neg hdb] at h2
            omega
        · intro hR d hd
          rw [bumpCount_countOf]
          by_cases hdb : d = b
          · subst hdb
            rw [if_pos rfl]
            have h2 := hR d (by rw [hcount_self]; omega)
            rw [hcount_self] at h2
            omega
          · rw [if_neg hdb]
            have h2 := hR d (by rw [hcount_ne d hdb]; exact hd)
            rw [hcount_ne d hdb] at h2
            omega

/-- C7 (amended): `Regulation::verify` accepts a deck iff no archetype id
occurs more than `max_same_cards` times *and the deck size truncated to
eight bits* (`deck.cards.len() as u8`, i.e. the length modulo 256) lies
within `[min_deck_size, max_deck_size]`.  The amendment — length modulo
256 instead of the length itself — is forced by the `as u8` cast; see
`verify_truncation_counterexample`.  The hypothesis `max_same_cards ≤ 254`
excludes the one corner where the source's `u8` duplicate counter could
wrap (see `bumpCount`). -/
theorem verify_iff (r : Regulation) (deck : DeckList)
    (hmax : r.maxSameCards ≤ 254) :
    r.verify deck = true ↔
      ((∀ a, (deck.cards.map DeckItem.archetypeId).count a ≤ r.maxSameCards) ∧
       r.minDeckSize ≤ deck.cards.length % 256 ∧
       deck.cards.length % 256 ≤ r.maxDeckSize) := by
  unfold Regulation.verify
  rw [Bool.and_eq_true, Bool.and_eq_true, verifyLoop_true_iff]
  simp only [decide_eq_true_eq, countOf, List.lookup, Option.getD, Nat.zero_add]
  constructor
  · rintro ⟨h1, h2, h3⟩
    refine ⟨fun a => ?_, h2, h3⟩
    rcases Nat.eq_zero_or_pos ((deck.cards.map DeckItem.archetypeId).count a)
        with h0 | h0
    · omega
    · have := h1 a h0
      omega
  · rintro ⟨h1, h2, h3⟩
    exact ⟨fun a _ => by have := h1 a; omega, h2, h3⟩

/-- Closed witness for `verify_iff`: `regSmall` (max four duplicates,
size within `[1, 4]`) accepts four copies of one archetype. -/
theorem verify_iff_witness : regSmall.verify deck4 = true :=
  (verify_iff regSmall deck4 (by decide)).mpr
    ⟨fun a => by
        by_cases h : a = 0
        · subst h
          decide
        · have hz : (deck4.cards.map DeckItem.archetypeId).count a = 0 := by
            apply List.count_eq_zero.mpr
            simp [deck4, h]
          rw [hz]
          omega,
      by decide, by decide⟩

set_option maxRecDepth 40000 in
/-- C7 (counterexample): the claim as stated — acceptance requires the
*total* card count to lie within `[min, max]` — fails on the code:
`deck276` (276 cards, no archetype more than four times) passes
`STANDARD.verify` because `276 as u8 = 20`, yet its total size exceeds
`max_deck_size = 20`. -/
theorem verify_truncation_counterexample :
    Regulation.STANDARD.verify deck276 = true ∧
    deck276.cards.length = 276 ∧
    ¬(deck276.cards.length ≤ Regulation.STANDARD.maxDeckSize) := by
  refine ⟨by decide, by decide, by decide⟩

/-- A non-pinned allocation takes exactly the increment branch. -/
theorem allocate_nonPinned (c : ObjectIdCounter) (req : Option Nat)
    (hp : isPinnedReq req = false) :
    c.allocate req = ({ counter := c.counter + 1 }, c.counter + 1) := by
  cases req with
  | none => rfl
  | some id =>
      simp only [isPinnedReq, Bool.and_eq_false_iff, decide_eq_false_iff_not,
        Nat.not_lt, Nat.not_le] at hp
      rw [ObjectIdCounter.allocate, if_neg (by omega)]

/-- A pinned allocation returns the requested id and leaves the counter
untouched. -/
theorem allocate_pinned (c : ObjectIdCounter) (id : Nat) (h1 : 0 < id)
    (h2 : id ≤ MAX_RESERVED_ID) :
    c.allocate (some id) = (c, id) := by
  rw [ObjectIdCounter.allocate, if_pos ⟨h1, h2⟩]

/-- The non-pinned results of an allocation trace are strictly increasing
and all exceed the starting counter. -/
theorem runAllocate_nonPinned (reqs : List (Option Nat)) :
    ∀ c : ObjectIdCounter,
      List.Pairwise (· < ·) (nonPinnedResults c reqs) ∧
      ∀ r ∈ nonPinnedResults c reqs, c.counter < r := by
  induction reqs with
  | nil => intro c; refine ⟨by simp [nonPinnedResults, runAllocate], ?_⟩
           simp [nonPinnedResults, runAllocate]
  | cons req rest ih =>
      intro c
      by_cases hp : isPinnedReq req = true
      · obtain ⟨id, rfl, h1, h2⟩ :
            ∃ id, req = some id ∧ 0 < id ∧ id ≤ MAX_RESERVED_ID := by
          cases req with
          | none => simp [isPinnedReq] at hp
          | some id =>
              simp only [isPinnedReq, Bool.and_eq_true, decide_eq_true_eq] at hp
              exact ⟨id, rfl, hp.1, hp.2⟩
        have halloc := allocate_pinned c id h1 h2
        have hrw : nonPinnedResults c (some id :: rest) = nonPinnedResults c rest := by
          simp [nonPinnedResults, runAllocate, halloc, hp]
        rw [hrw]
        exact ih c
      · rw [Bool.not_eq_true] at hp
        have halloc := allocate_nonPinned c req hp
        have hrw : nonPinnedResults c (req :: rest) =
            (c.counter + 1) :: nonPinnedResults { counter := c.counter + 1 } rest := by
          simp [nonPinnedResults, runAllocate, halloc, hp]
        rw [hrw]
        obtain ⟨ihp, ihm⟩ := ih { counter := c.counter + 1 }
        have ihm2 : ∀ r ∈ nonPinnedResults { counter := c.counter + 1 } rest,
            c.counter + 1 < r := fun r hr => ihm r hr
        refine ⟨List.pairwise_cons.mpr ⟨fun y hy => ihm y hy, ihp⟩, ?_⟩
        intro r hr
        rcases List.mem_cons.mp hr with rfl | hr
        · omega
        · have h3 := ihm2 r hr
          omega

/-- C8: `allocate(Some(id))` with `0 < id ≤ 100` returns exactly that id
and leaves the counter untouched; any other request (None, id 0, or an id
above the threshold) increments the counter and returns its new value;
and over any request trace from the default counter, the non-pinned
results are strictly increasing (hence unique) and all exceed the
reserved threshold 100. -/
theorem allocate_contract :
    (∀ (c : ObjectIdCounter) (id : Nat), 0 < id → id ≤ MAX_RESERVED_ID →
        c.allocate (some id) = (c, id)) ∧
    (∀ (c : ObjectIdCounter) (req : Option Nat), isPinnedReq req = false →
        c.allocate req = ({ counter := c.counter + 1 }, c.counter + 1)) ∧
    (∀ reqs : List (Option Nat),
        List.Pairwise (· < ·) (nonPinnedResults ObjectIdCounter.default reqs) ∧
        ∀ r ∈ nonPinnedResults ObjectIdCounter.default reqs,
          MAX_RESERVED_ID < r) := by
  refine ⟨allocate_pinned, allocate_nonPinned, fun reqs => ?_⟩
  exact runAllocate_nonPinned reqs ObjectIdCounter.default

/-- Closed witness for `allocate_contract`: a pinned request, a
non-pinned request, and a mixed trace. -/
theorem allocate_contract_witness :
    ObjectIdCounter.default.allocate (some 7) = (ObjectIdCounter.default, 7) ∧
    ObjectIdCounter.default.allocate (some 200) = ({ counter := 101 }, 101) ∧
    List.Pairwise (· < ·)
      (nonPinnedResults ObjectIdCounter.default [none, some 7, some 0, some 200]) := by
  refine ⟨allocate_contract.1 ObjectIdCounter.default 7 (by decide) (by decide),
          allocate_contract.2.1 ObjectIdCounter.default (some 200) (by decide),
          (allocate_contract.2.2 [none, some 7, some 0, some 200]).1⟩

/-- C9: the claim says a failed `consume` leaves the shard list
unchanged.  The code instead zeroes the matching entry on the
insufficient path and then drops it in the `retain` pass: consuming 5
from a list holding a single shard of color 0 returns the
insufficient-shards error *and* empties the list. -/
theorem consume_insufficient_mutates :
    (ShardList.consume { entries := [(0, 1)] } 0 5).2
        = .error (ActionError.insufficientShards 0 5) ∧
    (ShardList.consume { entries := [(0, 1)] } 0 5).1 = { entries := [] } ∧
    ({ entries := [] } : ShardList) ≠ { entries := [(0, 1)] } := by
  exact ⟨rfl, rfl, by decide⟩

end Engine

namespace Script

/-- Unfolding lemma: the monad bind of `EvalM` is `EvalM.bindM`. -/
theorem EvalM.bind_def {α β : Type} (m : EvalM α) (f : α → EvalM β) :
    m >>= f = EvalM.bindM m f := rfl

/-- Unfolding lemma: the monad pure of `EvalM` is `EvalM.pureM`. -/
theorem EvalM.pure_def {α : Type} (a : α) : (pure a : EvalM α) = EvalM.pureM a := rfl

/-- C5: evaluating the parse of `".,.,.|.,."` against any single input
value, with the standard execution budget (which amply covers the 15
consumed units), succeeds with exactly `3 * 2 = 6` output values, each
equal to the input: the comma sides concatenate their outputs against the
same input and the pipe feeds each output of the left side as an input to
the right side. -/
theorem pipe_comma_multiplicity (env : ExpEnv) (fuel : Nat) (v : Value) :
    (evalV env (fuel + 4) pipeCommaExp v ExpParams.default).2
      = .ok [v, v, v, v, v, v] := rfl

/-- C6: path-indexing a key that is absent from an object value yields no
output and no error when the segment carries the `?` optional suffix, and
fails the whole evaluation with the key-not-found error without it. -/
theorem path_optional_suffix (env : ExpEnv) (fuel : Nat)
    (kvs : List (String × Value)) (k : String)
    (h : List.lookup k kvs = none) :
    (evalV env (fuel + 2)
        (.path .ident [.index (.value (.constant (.str k))) true])
        (.object kvs) ExpParams.default).2 = .ok [] ∧
    (evalV env (fuel + 2)
        (.path .ident [.index (.value (.constant (.str k))) false])
        (.object kvs) ExpParams.default).2
      = .error (EvalErr.run (Error.keyNotFound k)) := by
  have hidx : Value.indexStr (Value.object kvs) k = .error (Error.keyNotFound k) := by
    simp [Value.indexStr, h]
  have e1 : fuel + 2 = (fuel + 1) + 1 := rfl
  constructor <;>
  · rw [e1]
    simp [evalV, EvalM.bind_def, EvalM.pure_def, EvalM.bindM, EvalM.pureM,
      consumeExecM, ExpParams.consumeExec, liftE, literalIndices, applyIndices,
      hidx, LiteralPath.optOf, Except.mapError, throwE, ExpParams.default,
      EXECUTION_LIMIT, Scope.emptyScope, List.foldlM, Bind.bind, Pure.pure,
      Except.bind, Except.pure]

/-- Closed witness for `path_optional_suffix`: the empty object has no
key `"k"`. -/
theorem path_optional_suffix_witness :
    (evalV envNone 2
        (.path .ident [.index (.value (.constant (.str "k"))) true])
        (.object []) ExpParams.default).2 = .ok [] ∧
    (evalV envNone 2
        (.path .ident [.index (.value (.constant (.str "k"))) false])
        (.object []) ExpParams.default).2
      = .error (EvalErr.run (Error.keyNotFound "k")) :=
  path_optional_suffix envNone 0 [] "k" rfl

/-- C4: evaluating `"s" * n` from the standard execution budget: the
`BinOp` node and its two literal operands each consume one unit, and the
string-by-count pre-check then consumes `n` units, so a count exceeding
the remaining budget (`EXECUTION_LIMIT - 3`) fails with the
execution-limit-exceeded error, while a count within it succeeds having
consumed exactly `3 + n` units. -/
theorem string_mul_budget (env : ExpEnv) (fuel : Nat) (s : String) (n : Nat)
    (input : Value) :
    (EXECUTION_LIMIT < n + 3 →
      (evalV env (fuel + 2)
          (.binOp (.value (.constant (.str s))) .mul
            (.value (.constant (.u64 n))))
          input ExpParams.default).2
        = .error (EvalErr.run Error.executionLimitExceeded)) ∧
    (n + 3 ≤ EXECUTION_LIMIT →
      evalV env (fuel + 2)
          (.binOp (.value (.constant (.str s))) .mul
            (.value (.constant (.u64 n))))
          input ExpParams.default
        = ({ vars := [Scope.emptyScope],
             executionLimit := EXECUTION_LIMIT - 3 - n },
           .ok [Value.constant (Constant.str (repeatStr s n))])) := by
  have e1 : fuel + 2 = (fuel + 1) + 1 := rfl
  constructor
  · intro h
    have hc : ¬ n ≤ 253 := by
      simp only [EXECUTION_LIMIT] at h
      omega
    rw [e1]
    simp [evalV, EvalM.bind_def, EvalM.pure_def, EvalM.bindM, EvalM.pureM,
      consumeExecM, ExpParams.consumeExec, liftE, applyBinOp, Value.mulV, binOpBudget,
      Except.mapError, throwE, hc, ExpParams.default, EXECUTION_LIMIT,
      Scope.emptyScope, List.foldlM, Bind.bind, Pure.pure, Except.bind,
      Except.pure]
  · intro h
    have hc : n ≤ 253 := by
      simp only [EXECUTION_LIMIT] at h
      omega
    have hlim : 253 - n = EXECUTION_LIMIT - 3 - n := rfl
    rw [e1]
    simp [evalV, EvalM.bind_def, EvalM.pure_def, EvalM.bindM, EvalM.pureM,
      consumeExecM, ExpParams.consumeExec, liftE, applyBinOp, Value.mulV, binOpBudget,
      Except.mapError, hc, ExpParams.default, EXECUTION_LIMIT,
      Scope.emptyScope, List.foldlM, Bind.bind, Pure.pure, Except.bind,
      Except.pure]

/-- Computations whose final params equal the initial ones preserve the
vars shape. -/
theorem presVars_of_fst_eq {α : Type} (m : EvalM α) (h : ∀ p, (m p).1 = p) :
    PresVars m := by
  intro p hp
  rw [h p]
  exact ⟨rfl, rfl⟩

/-- Computations that do not touch the scope stack preserve the vars
shape. -/
theorem presVars_of_vars_eq {α : Type} (m : EvalM α)
    (h : ∀ p, (m p).1.vars = p.vars) : PresVars m := by
  intro p hp
  rw [h p]
  exact ⟨rfl, rfl⟩

theorem presVars_pure {α : Type} (a : α) : PresVars (pure a : EvalM α) :=
  presVars_of_fst_eq _ fun _ => rfl

theorem presVars_throwE {α : Type} (e : EvalErr) :
    PresVars (throwE e : EvalM α) :=
  presVars_of_fst_eq _ fun _ => rfl

theorem presVars_liftE {α : Type} (x : Except Error α) : PresVars (liftE x) :=
  presVars_of_fst_eq _ fun _ => rfl

theorem presVars_consumeExecM (n : Nat) : PresVars (consumeExecM n) := by
  apply presVars_of_vars_eq
  intro p
  unfold consumeExecM ExpParams.consumeExec
  split <;> rfl

theorem presVars_lookupVarM (env : ExpEnv) (name : String) :
    PresVars (lookupVarM env name) := by
  apply presVars_of_fst_eq
  intro p
  unfold lookupVarM
  split <;> rfl

theorem presVars_getDefM (name : String) (arity : Nat) :
    PresVars (getDefM name arity) :=
  presVars_of_fst_eq _ fun _ => rfl

theorem presVars_invokeBuiltinM (env : ExpEnv) (name : String)
    (args : List Value) : PresVars (invokeBuiltinM env name args) :=
  presVars_of_fst_eq _ fun _ => rfl

theorem presVars_setVarM (name : String) (v : Value) :
    PresVars (setVarM name v) := by
  intro p hp
  obtain ⟨vars, lim⟩ := p
  cases vars with
  | nil => exact ⟨rfl, rfl⟩
  | cons s rest => exact ⟨rfl, rfl⟩

/-- A nonempty scope stack stays nonempty across a shape-preserving
computation. -/
theorem vars_ne_nil_of_pres {α : Type} {m : EvalM α} {p p1 : ExpParams}
    {r : Except EvalErr α} (hm : PresVars m) (hp : p.vars ≠ [])
    (hmp : m p = (p1, r)) : p1.vars ≠ [] := by
  have h1 := hm p hp
  rw [hmp] at h1
  apply List.ne_nil_of_length_pos
  rw [h1.1]
  exact List.length_pos.mpr hp

theorem presVars_bind {α β : Type} {m : EvalM α} {f : α → EvalM β}
    (hm : PresVars m) (hf : ∀ a, PresVars (f a)) : PresVars (m >>= f) := by
  intro p hp
  rw [EvalM.bind_def]
  unfold EvalM.bindM
  rcases hmp : m p with ⟨p1, r⟩
  have h1 := hm p hp
  rw [hmp] at h1
  cases r with
  | error e => exact h1
  | ok a =>
      have hp1 : p1.vars ≠ [] := vars_ne_nil_of_pres hm hp hmp
      have h2 := hf a p1 hp1
      exact ⟨h2.1.trans h1.1, h2.2.trans h1.2⟩

theorem presVars_foldlM {α β : Type} (f : β → α → EvalM β) (l : List α)
    (hf : ∀ b a, PresVars (f b a)) :
    ∀ init, PresVars (List.foldlM f init l) := by
  induction l with
  | nil =>
      intro init
      exact presVars_pure init
  | cons a rest ih =>
      intro init
      have hstep : List.foldlM f init (a :: rest) =
          f init a >>= fun b => List.foldlM f b rest := by
        simp [List.foldlM]
      rw [hstep]
      exact presVars_bind (hf init a) fun b => ih b

theorem presVars_tryCatchM {α : Type} {m h : EvalM α} (hm : PresVars m)
    (hh : PresVars h) : PresVars (tryCatchM m h) := by
  intro p hp
  unfold tryCatchM
  rcases hmp : m p with ⟨p1, r⟩
  have h1 := hm p hp
  rw [hmp] at h1
  cases r with
  | ok v => exact h1
  | error e =>
      cases e with
      | fuel => exact h1
      | run e0 =>
          have hp1 : p1.vars ≠ [] := vars_ne_nil_of_pres hm hp hmp
          have h2 := hh p1 hp1
          exact ⟨h2.1.trans h1.1, h2.2.trans h1.2⟩

/-- Binding argument values into the innermost scope only rewrites the
head of the scope stack. -/
theorem foldl_setVar_vars (bs : List (String × Value)) :
    ∀ (q : ExpParams) (s : Scope) (rest : List Scope), q.vars = s :: rest →
      ∃ s2, (bs.foldl (fun q b => q.setVar b.1 b.2) q).vars = s2 :: rest := by
  induction bs with
  | nil =>
      intro q s rest hq
      exact ⟨s, hq⟩
  | cons b bs ih =>
      intro q s rest hq
      rw [List.foldl_cons]
      have hstep : (q.setVar b.1 b.2).vars = ((b.1, Exp.value b.2) :: s) :: rest := by
        obtain ⟨vars, lim⟩ := q
        obtain rfl : vars = s :: rest := hq
        rfl
      exact ih _ _ _ hstep

/-- `scopedM` restores the entire scope stack it found on entry — also
when the inner computation reports an error — provided the inner
computation preserves the vars shape and the stack was nonempty. -/
theorem scopedM_vars {α : Type} (bs : List (String × Value)) (m : EvalM α)
    (hm : PresVars m) : ∀ p : ExpParams, p.vars ≠ [] →
    ((scopedM bs m) p).1.vars = p.vars := by
  intro p hp
  unfold scopedM
  obtain ⟨s2, hs2⟩ :=
    foldl_setVar_vars bs p.pushVars Scope.emptyScope p.vars rfl
  set p1 := bs.foldl (fun q b => q.setVar b.1 b.2) p.pushVars with hp1
  have hp1ne : p1.vars ≠ [] := by
    rw [hs2]
    exact List.cons_ne_nil _ _
  have h2 := hm p1 hp1ne
  have hlen : (m p1).1.vars.length = p.vars.length + 1 := by
    rw [h2.1, hs2]
    rfl
  have htail : (m p1).1.vars.tail = p.vars := by
    rw [h2.2, hs2]
    rfl
  show ((m p1).1.popVars).vars = p.vars
  unfold ExpParams.popVars
  rw [if_pos (by rw [hlen]; have hlp := List.length_pos.mpr hp; omega)]
  exact htail

theorem presVars_scopedM {α : Type} (bs : List (String × Value))
    (m : EvalM α) (hm : PresVars m) : PresVars (scopedM bs m) := by
  intro p hp
  rw [scopedM_vars bs m hm p hp]
  exact ⟨rfl, rfl⟩


theorem presVars_binOpBudget (lv rv : Value) (op : BinOp) :
    PresVars (binOpBudget lv rv op) := by
  intro p hp
  unfold binOpBudget
  split
  · exact presVars_consumeExecM _ p hp
  · exact presVars_pure () p hp

/-- The vars-shape invariant holds for every evaluation: the scope stack
keeps its depth and its outer scopes across any expression, at any fuel,
on success and on error alike. -/
theorem evalV_presVars (env : ExpEnv) :
    ∀ (fuel : Nat) (e : Exp) (input : Value), PresVars (evalV env fuel e input) := by
  intro fuel
  induction fuel with
  | zero =>
      intro e input
      exact presVars_throwE EvalErr.fuel
  | succ n ih =>
      intro e input
      cases e with
      | ident =>
          exact presVars_bind (presVars_consumeExecM 1) fun _ => presVars_pure _
      | path lhs parts =>
          refine presVars_bind (presVars_consumeExecM 1) fun _ => ?_
          refine presVars_bind (ih lhs input) fun v0 => ?_
          refine presVars_foldlM _ parts ?_ v0
          intro val part
          cases part with
          | index idx opt =>
              refine presVars_bind (ih idx input) fun is0 => ?_
              exact presVars_bind (presVars_liftE _) fun lits => presVars_liftE _
          | range st en opt =>
              have hen : ∀ stIdx : List (Option Int), PresVars
                  (match en with
                   | some e0 => do
                       let xs ← evalV env n e0 input
                       let y ← liftE (toIntIndices xs)
                       (fun enIdx =>
                         let len := max (max stIdx.length enIdx.length) 1
                         let lits :=
                           ((padNone stIdx len).zip (padNone enIdx len)).map
                             (fun se => LiteralPath.rangeL se.1 se.2 opt)
                         liftE (applyIndices lits val)) y
                   | none => do
                       let y ← (pure [] : EvalM (List (Option Int)))
                       (fun enIdx =>
                         let len := max (max stIdx.length enIdx.length) 1
                         let lits :=
                           ((padNone stIdx len).zip (padNone enIdx len)).map
                             (fun se => LiteralPath.rangeL se.1 se.2 opt)
                         liftE (applyIndices lits val)) y) := by
                intro stIdx
                cases en with
                | some e0 =>
                    refine presVars_bind (ih e0 input) fun xs => ?_
                    exact presVars_bind (presVars_liftE _) fun y => presVars_liftE _
                | none => exact presVars_bind (presVars_pure _) fun y => presVars_liftE _
              cases st with
              | some e0 =>
                  refine presVars_bind (ih e0 input) fun xs => ?_
                  exact presVars_bind (presVars_liftE _) fun y => hen y
              | none => exact presVars_bind (presVars_pure _) fun y => hen y
      | var name =>
          exact presVars_bind (presVars_consumeExecM 1) fun _ =>
            presVars_bind (presVars_lookupVarM env name) fun v => presVars_pure _
      | value v =>
          exact presVars_bind (presVars_consumeExecM 1) fun _ => presVars_pure _
      | arr oe =>
          cases oe with
          | some e0 =>
              exact presVars_bind (presVars_consumeExecM 1) fun _ =>
                presVars_bind (ih e0 input) fun vs => presVars_pure _
          | none =>
              exact presVars_bind (presVars_consumeExecM 1) fun _ => presVars_pure _
      | obj pairs =>
          refine presVars_bind (presVars_consumeExecM 1) fun _ => ?_
          refine presVars_bind ?_ fun kvs => presVars_pure _
          refine presVars_foldlM _ pairs ?_ []
          intro acc pr
          refine presVars_bind (ih pr.1 input) fun keys => ?_
          refine presVars_foldlM _ keys ?_ acc
          intro acc2 k
          have hlast : ∀ vals : List Value, PresVars
              (match vals.getLast? with
               | some last => (pure (insertSorted acc2 k.render last) : EvalM _)
               | none => pure acc2) := by
            intro vals
            rcases hgl : vals.getLast? with _ | last <;> simp only [hgl]
            · exact presVars_pure _
            · exact presVars_pure _
          rcases hpv : pr.2 with _ | rhs <;> simp only [hpv]
          · refine presVars_bind (presVars_liftE _) fun v => ?_
            exact presVars_bind (presVars_pure _) fun y => hlast y
          · exact presVars_bind (ih rhs input) fun y => hlast y
      | assign name e0 =>
          refine presVars_bind (presVars_consumeExecM 1) fun _ => ?_
          refine presVars_bind (ih e0 input) fun vs => ?_
          rcases hgl : vs.getLast? with _ | last <;> simp only [hgl]
          · exact presVars_pure _
          · exact presVars_bind (presVars_setVarM name last) fun _ => presVars_pure _
      | pipe l r =>
          refine presVars_bind (presVars_consumeExecM 1) fun _ => ?_
          refine presVars_bind (ih l input) fun vs => ?_
          refine presVars_foldlM _ vs ?_ []
          intro acc v
          exact presVars_bind (ih r v) fun out => presVars_pure _
      | comma l r =>
          exact presVars_bind (presVars_consumeExecM 1) fun _ =>
            presVars_bind (ih l input) fun a =>
              presVars_bind (ih r input) fun b => presVars_pure _
      | tryCatch l r =>
          exact presVars_bind (presVars_consumeExecM 1) fun _ =>
            presVars_tryCatchM (ih l input) (ih r input)
      | ifThenElse branches els =>
          refine presVars_bind (presVars_consumeExecM 1) fun _ => ?_
          refine presVars_bind ?_ fun taken => ?_
          · refine presVars_foldlM _ branches ?_ none
            intro acc cb
            cases acc with
            | some r => exact presVars_pure _
            | none =>
                refine presVars_bind (ih cb.1 input) fun cs => ?_
                by_cases hany : cs.any Value.truthy = true
                · rw [if_pos hany]
                  exact presVars_bind (ih cb.2 input) fun r => presVars_pure _
                · rw [if_neg hany]
                  exact presVars_pure _
          · cases taken with
            | some r => exact presVars_pure _
            | none =>
                cases els with
                | some e0 => exact ih e0 input
                | none => exact presVars_pure _
      | binOp l op r =>
          refine presVars_bind (presVars_consumeExecM 1) fun _ => ?_
          refine presVars_bind (ih l input) fun ls => ?_
          refine presVars_bind (ih r input) fun rs => ?_
          refine presVars_foldlM _ ls ?_ []
          intro acc lv
          refine presVars_foldlM _ rs ?_ acc
          intro acc2 rv
          exact presVars_bind (presVars_binOpBudget lv rv op) fun _ =>
            presVars_bind (presVars_liftE _) fun v => presVars_pure _
      | neg e0 =>
          refine presVars_bind (presVars_consumeExecM 1) fun _ => ?_
          refine presVars_bind (ih e0 input) fun vs => ?_
          refine presVars_foldlM _ vs ?_ []
          intro acc v
          exact presVars_bind (presVars_liftE _) fun r => presVars_pure _
      | str args =>
          refine presVars_bind (presVars_consumeExecM 1) fun _ => ?_
          refine presVars_bind ?_ fun s => presVars_pure _
          refine presVars_foldlM _ args ?_ ""
          intro acc arg
          exact presVars_bind (ih arg input) fun vs => presVars_pure _
      | select arg =>
          exact presVars_bind (presVars_consumeExecM 1) fun _ =>
            presVars_bind (ih arg input) fun vs => presVars_pure _
      | err e0 =>
          refine presVars_bind (presVars_consumeExecM 1) fun _ => ?_
          refine presVars_bind (ih e0 input) fun vs => ?_
          rcases hh : vs.head? with _ | m <;> simp only [hh]
          · exact presVars_pure _
          · exact presVars_throwE _
      | customFunction name args =>
          refine presVars_bind (presVars_consumeExecM 1) fun _ => ?_
          refine presVars_bind (presVars_getDefM name args.length) fun d => ?_
          have hbuiltin :
              PresVars
                ((args.foldlM
                    (fun acc a => do
                      let vs ← evalV env n a input
                      pure (acc ++ vs))
                    []) >>= fun newArgs => invokeBuiltinM env name newArgs) :=
            presVars_bind
              (presVars_foldlM _ args
                (fun b a => presVars_bind (ih a input) fun vs => presVars_pure _)
                [])
              fun newArgs => presVars_invokeBuiltinM env name newArgs
          rcases d with _ | e1
          · exact hbuiltin
          · cases e1 <;> try exact hbuiltin
            rename_i v
            cases v <;> try exact hbuiltin
            rename_i f
            refine presVars_bind ?_ fun newArgs =>
              presVars_scopedM _ _ (ih f.body input)
            refine presVars_foldlM _ (f.args.zip args) ?_ []
            intro acc pr
            by_cases hsw : pr.1.startsWith "$" = true
            · rw [if_pos hsw]
              refine presVars_bind (ih pr.2 input) fun vs => ?_
              rcases hgl : vs.getLast? with _ | last <;> simp only [hgl]
              · exact presVars_pure _
              · exact presVars_pure _
            · rw [if_neg hsw]
              exact presVars_pure _
      | empty =>
          exact presVars_bind (presVars_consumeExecM 1) fun _ => presVars_pure _
      | not =>
          exact presVars_bind (presVars_consumeExecM 1) fun _ => presVars_pure _

/-- C10: the variable-scope stack is never empty — it starts as one
global scope, `push_vars` adds a scope, and `pop_vars` refuses to remove
the last remaining one; evaluation preserves non-emptiness; and
`Function::invoke` (push before binding arguments, pop after the body,
also when the body returns an error) restores exactly the scope stack it
found on entry, so outer-scope bindings survive every function call. -/
theorem scope_stack_invariant :
    ExpParams.default.vars.length = 1 ∧
    (∀ p : ExpParams, p.pushVars.vars.length = p.vars.length + 1) ∧
    (∀ p : ExpParams, p.vars.length ≤ 1 → p.popVars = p) ∧
    (∀ (env : ExpEnv) (fuel : Nat) (e : Exp) (input : Value) (p : ExpParams),
        p.vars ≠ [] → ((evalV env fuel e input) p).1.vars ≠ []) ∧
    (∀ (env : ExpEnv) (fuel : Nat) (f : Function) (args : List Value)
        (input : Value) (p : ExpParams), p.vars ≠ [] →
        ((Function.invoke env fuel f args input) p).1.vars = p.vars) := by
  refine ⟨rfl, fun p => rfl, ?_, ?_, ?_⟩
  · intro p h
    unfold ExpParams.popVars
    rw [if_neg (by omega)]
  · intro env fuel e input p hp
    have h1 := evalV_presVars env fuel e input p hp
    apply List.ne_nil_of_length_pos
    rw [h1.1]
    exact List.length_pos.mpr hp
  · intro env fuel f args input p hp
    exact scopedM_vars _ _ (evalV_presVars env fuel f.body input) p hp

/-- Closed witness for `scope_stack_invariant`: popping the default
params is a no-op, and an invocation that binds an argument and even
errors inside the body (undefined variable) restores the entry stack. -/
theorem scope_stack_invariant_witness :
    ExpParams.default.popVars = ExpParams.default ∧
    ((Function.invoke envNone 5 (Function.mk "f" ["$a"] (Exp.var "$missing"))
        [Value.constant Constant.null] (Value.constant Constant.null))
        ExpParams.default).1.vars = ExpParams.default.vars :=
  ⟨scope_stack_invariant.2.2.1 ExpParams.default (by decide),
   scope_stack_invariant.2.2.2.2 envNone 5
     (Function.mk "f" ["$a"] (Exp.var "$missing"))
     [Value.constant Constant.null] (Value.constant Constant.null)
     ExpParams.default (List.cons_ne_nil _ _)⟩

/-- Closed witness for `string_mul_budget`: `"x" * 999999` exhausts the
budget, `"x" * 3` succeeds consuming `3 + 3` units. -/
theorem string_mul_budget_witness :
    (evalV envNone 2
        (.binOp (.value (.constant (.str "x"))) .mul
          (.value (.constant (.u64 999999))))
        (Value.constant Constant.null) ExpParams.default).2
      = .error (EvalErr.run Error.executionLimitExceeded) ∧
    evalV envNone 2
        (.binOp (.value (.constant (.str "x"))) .mul
          (.value (.constant (.u64 3))))
        (Value.constant Constant.null) ExpParams.default
      = ({ vars := [Scope.emptyScope], executionLimit := EXECUTION_LIMIT - 3 - 3 },
         .ok [Value.constant (Constant.str (repeatStr "x" 3))]) :=
  ⟨(string_mul_budget envNone 0 "x" 999999 (Value.constant Constant.null)).1
      (by decide),
   (string_mul_budget envNone 0 "x" 3 (Value.constant Constant.null)).2
      (by decide)⟩

end Script
